import Mathlib

/-!
# Section similarity engine: byte scorer, pair comparator, matrix builder, transposer, CSV rows

A shallow embedding of `comparePEv2.go` (the scorer `compareBytes` is repeated verbatim in
`comparePE.go` and `compareELF.go`).

* Go `map[string]V` values are association lists with unique keys (`GoMap V`). A `range` loop
  over a map is a fold over the entries; Go leaves the order unspecified, so every statement
  below is made for an arbitrary entry order and phrased through lookups.
* `float64` values are the rationals they denote. Every arithmetic operation rounds its exact
  result to the nearest binary64 value, ties to even (`roundF64`). Only non-negative finite
  values occur in the program, all of them far inside the exponent range of binary64, so
  neither overflow nor gradual underflow is represented.
* The standard library (`os`, `debug/pe`, `path/filepath`, `strconv`) is outside the repository.
  Its behaviour enters as explicit arguments (`World`, `formatFloat`) or, for `os.File.Seek`,
  `os.File.Read` and `pe.NewFile` on object-style images, as a small model of the documented
  behaviour.
-/

namespace SectionSim

/-! ## Data model -/

/-- A Go `map[string]V`. -/
abbrev GoMap (V : Type) := AList (fun _ : String => V)

/-- A Go `[]byte`. -/
abbrev Bytes := List UInt8

/-- A Go `float64` that is finite, denoted by its exact value. -/
abbrev Float64 := ℚ

/-- The three-level matrix `map[string]map[string]map[string]float64`. -/
abbrev Matrix := GoMap (GoMap (GoMap Float64))

/-- Lookup `m[a][b]` with presence information. -/
def lookup2 {V : Type} (m : GoMap (GoMap V)) (a b : String) : Option V :=
  (m.lookup a).bind (fun inner => inner.lookup b)

/-- Lookup `m[a][b][c]` with presence information. -/
def lookup3 {V : Type} (m : GoMap (GoMap (GoMap V))) (a b c : String) : Option V :=
  (m.lookup a).bind (fun inner => (inner.lookup b).bind (fun innerInner => innerInner.lookup c))

/-- Deep equality of two three-level maps: the same keys at every level and the same scores. -/
def DeepEq (m m' : Matrix) : Prop :=
  (∀ a, (m.lookup a).isSome = (m'.lookup a).isSome) ∧
  (∀ a b, (lookup2 m a b).isSome = (lookup2 m' a b).isSome) ∧
  (∀ a b c, lookup3 m a b c = lookup3 m' a b c)

/-! ## binary64 arithmetic -/

/-- Round a rational to the nearest integer, ties to the even neighbour. -/
def roundHalfEven (y : ℚ) : ℤ :=
  let f := ⌊y⌋
  let r := y - f
  if r < 1 / 2 then f
  else if 1 / 2 < r then f + 1
  else if f % 2 = 0 then f else f + 1

/-- Round a rational to the nearest binary64 value (53-bit significand, ties to even). -/
def roundF64 (x : ℚ) : Float64 :=
  if x = 0 then 0
  else
    let e := Int.log 2 |x| - 52
    (roundHalfEven (x / 2 ^ e) : ℚ) * 2 ^ e

/-- The conversion `float64(n)` of a non-negative `int`. -/
def float64 (n : Nat) : Float64 := roundF64 n

/-- The `float64` division `x / y`. -/
def f64div (x y : Float64) : Float64 := roundF64 (x / y)

/-- The `float64` multiplication `x * y`. -/
def f64mul (x y : Float64) : Float64 := roundF64 (x * y)

/-! ## SimilarityScorer -/

/-- The function `compareBytes` of `comparePEv2.go` (lines 56-83). The loop index stays below
both lengths, so the default of `getD` is never used. -/
def compareBytes (bytes1 bytes2 : Bytes) : Float64 :=
  if bytes1.length = 0 ∨ bytes2.length = 0 then 0
  else
    let totalBytes := if bytes1.length < bytes2.length then bytes1.length else bytes2.length
    let matchingBytes := (List.range totalBytes).foldl
      (fun matchingBytes i =>
        if bytes1.getD i 0 = bytes2.getD i 0 then matchingBytes + 1 else matchingBytes) 0
    let similarity := f64mul (f64div (float64 matchingBytes) (float64 totalBytes)) 100
    similarity

/-- The number of positions `i < min (len a) (len b)` with `a[i] == b[i]`, as the
specification words it. -/
def refMatches (a b : Bytes) : Nat :=
  ((List.range (min a.length b.length)).filter (fun i => decide (a[i]? = b[i]?))).length

/-- The reference score of the specification: `0` if either input is empty, and otherwise
`100 * matches / n` as an exact number. -/
def refScore (a b : Bytes) : ℚ :=
  if a = [] ∨ b = [] then 0
  else 100 * (refMatches a b : ℚ) / ((min a.length b.length : ℕ) : ℚ)

/-! ## SectionReader (PE) -/

/-- The fields of a `pe.Section` header that the program uses. -/
structure SectionHeader where
  Name : String
  Offset : Nat
  Size : Nat
deriving DecidableEq, Repr

/-- An open `os.File` on a regular file: its bytes and the current position. -/
structure File where
  content : Bytes
  pos : Nat
deriving DecidableEq, Repr

/-- The call `file.Seek(offset, 0)`: on a regular file an absolute seek to a non-negative
offset succeeds, also past the end. -/
def File.Seek (file : File) (offset : Nat) : Except String File :=
  .ok { file with pos := offset }

/-- The call `file.Read(data)` with `len(data) = len`, `data` freshly zeroed: it reads up to
`len` bytes, returns `io.EOF` only when `len > 0` and no byte is left, and otherwise returns
a nil error also when fewer than `len` bytes were read. The first component is the buffer
after the call. -/
def File.Read (file : File) (len : Nat) : Except String (Bytes × File) :=
  if len = 0 then .ok ([], file)
  else
    let avail := file.content.drop file.pos
    if avail = [] then .error "EOF"
    else
      let got := avail.take len
      .ok (got ++ List.replicate (len - got.length) 0, { file with pos := file.pos + got.length })

/-- The function `readSectionBytes` of `comparePEv2.go` (lines 40-54). -/
def readSectionBytes (sec : SectionHeader) (file : File) : Except String (Bytes × File) :=
  match file.Seek sec.Offset with
  | .error err => .error ("error seeking to section " ++ sec.Name ++ ": " ++ err)
  | .ok file =>
    match file.Read sec.Size with
    | .error err => .error ("error reading section " ++ sec.Name ++ ": " ++ err)
    | .ok (data, file) => .ok (data, file)

/-- The section loop of `ReadSectionsPE` (lines 28-35). -/
def readSectionsLoop : List SectionHeader → File → GoMap Bytes → Except String (GoMap Bytes)
  | [], _, sections => .ok sections
  | sec :: rest, file, sections =>
    match readSectionBytes sec file with
    | .error err => .error ("error reading section " ++ sec.Name ++ ": " ++ err)
    | .ok (content, file) => readSectionsLoop rest file (sections.insert sec.Name content)

/-- The function `ReadSectionsPE` of `comparePEv2.go` (lines 16-38). The parser `pe.NewFile`
is an argument; it reads through `ReadAt` and leaves the position untouched. -/
def ReadSectionsPE (peNewFile : Bytes → Except String (List SectionHeader)) (file : File) :
    Except String (GoMap Bytes) :=
  match peNewFile file.content with
  | .error err => .error ("error parsing PE file: " ++ err)
  | .ok peSections => readSectionsLoop peSections file ∅

/-! ## PairComparator -/

/-- One visit of `filepath.Walk`: the arguments of its callback, which are the path of the
entry, the base name and kind from its `os.FileInfo`, and the error the walk hands over. -/
structure WalkEntry where
  path : String
  Name : String
  IsDir : Bool
  err : Option String
deriving DecidableEq, Repr

/-- The environment of a run: `os.Open` (the bytes of the file at a path), `pe.NewFile`,
the visits of `filepath.Walk` on a folder, and `filepath.Join`. -/
structure World where
  osOpen : String → Except String Bytes
  peNewFile : Bytes → Except String (List SectionHeader)
  walk : String → List WalkEntry
  join : String → String → String

/-- The comparison loop of `comparePEFiles` (lines 114-124). -/
def compareSections (sections1 sections2 : GoMap Bytes) : GoMap Float64 :=
  sections1.entries.foldl
    (fun results entry =>
      match sections2.lookup entry.1 with
      | none => results
      | some content2 => results.insert entry.1 (compareBytes entry.2 content2))
    ∅

/-- The function `comparePEFiles` of `comparePEv2.go` (lines 85-127). -/
def comparePEFiles (w : World) (file1 file2 : String) : Except String (GoMap Float64) :=
  match w.osOpen file1 with
  | .error err => .error ("error opening file1: " ++ err)
  | .ok f1 =>
    match w.osOpen file2 with
    | .error err => .error ("error opening file2: " ++ err)
    | .ok f2 =>
      match ReadSectionsPE w.peNewFile ⟨f1, 0⟩ with
      | .error err => .error ("error reading sections from file1: " ++ err)
      | .ok sections1 =>
        match ReadSectionsPE w.peNewFile ⟨f2, 0⟩ with
        | .error err => .error ("error reading sections from file2: " ++ err)
        | .ok sections2 => .ok (compareSections sections1 sections2)

/-- A folder `dir` with three files: `A` has the sections `a`, `b`; `B` has `b`, `c`; `C` has
`b`. -/
def demoWorld : World where
  osOpen := fun path =>
    if path = "dir/A" then .ok [1, 2, 3, 4]
    else if path = "dir/B" then .ok [3, 9, 7, 7]
    else if path = "dir/C" then .ok [3, 4]
    else .error "no such file or directory"
  peNewFile := fun content =>
    if content = [1, 2, 3, 4] then .ok [⟨"a", 0, 2⟩, ⟨"b", 2, 2⟩]
    else if content = [3, 9, 7, 7] then .ok [⟨"b", 0, 2⟩, ⟨"c", 2, 2⟩]
    else if content = [3, 4] then .ok [⟨"b", 0, 2⟩]
    else .error "not a PE file"
  walk := fun _ => [⟨"dir", "dir", true, none⟩, ⟨"dir/A", "A", false, none⟩,
    ⟨"dir/B", "B", false, none⟩, ⟨"dir/C", "C", false, none⟩]
  join := fun folder name => folder ++ "/" ++ name

/-! ## MatrixBuilder -/

/-- The inner callback of `compareAllPEFiles` (lines 143-157) for the outer file `name`. As
in the source, the callback does not use the path of the visit: it opens
`filepath.Join(folder, info.Name())` and `filepath.Join(folder, info2.Name())`. An assignment
through a missing first-level key would be a run-time panic in Go. -/
def innerVisit (w : World) (folder name : String)
    (similarityMatrix : GoMap (GoMap (GoMap Float64))) (info2 : WalkEntry) :
    Except String (GoMap (GoMap (GoMap Float64))) :=
  match info2.err with
  | some err => .error err
  | none =>
    if !info2.IsDir && name != info2.Name then
      match comparePEFiles w (w.join folder name) (w.join folder info2.Name) with
      | .error err => .error err
      | .ok similarity =>
        match similarityMatrix.lookup name with
        | none => .error "panic: assignment to entry in nil map"
        | some row => .ok (similarityMatrix.insert name (row.insert info2.Name similarity))
    else .ok similarityMatrix

/-- A run of `filepath.Walk` whose callback updates the matrix: the visits in order, stopping
at the first error. -/
def walkFold (visit : Matrix → WalkEntry → Except String Matrix) :
    List WalkEntry → Matrix → Except String Matrix
  | [], similarityMatrix => .ok similarityMatrix
  | info :: rest, similarityMatrix =>
    match visit similarityMatrix info with
    | .error err => .error err
    | .ok similarityMatrix => walkFold visit rest similarityMatrix

/-- The outer callback of `compareAllPEFiles` (lines 134-163). -/
def outerVisit (w : World) (folder : String)
    (similarityMatrix : Matrix) (info : WalkEntry) : Except String Matrix :=
  match info.err with
  | some err => .error err
  | none =>
    if !info.IsDir then
      walkFold (innerVisit w folder info.Name) (w.walk folder)
        (similarityMatrix.insert info.Name ∅)
    else .ok similarityMatrix

/-- The function `compareAllPEFiles` of `comparePEv2.go` (lines 129-170). -/
def compareAllPEFiles (w : World) (folder : String) : Except String Matrix :=
  walkFold (outerVisit w folder) (w.walk folder) ∅

/-- The base names of the regular files a walk visits, in visiting order. -/
def fileNames (entries : List WalkEntry) : List String :=
  (entries.filter (fun info => !info.IsDir)).map (fun info => info.Name)

/-- The number of populated `(X, Y)` cells of a matrix. -/
def populatedPairs (m : Matrix) : Nat :=
  (m.entries.map (fun row => row.2.entries.length)).sum

/-! ## MatrixTransposer -/

/-- The body of the innermost loop of `transformDataset` (lines 215-221). -/
def transformStep (transformed : Matrix) (outerKey innerKey innerInnerKey : String)
    (value : Float64) : Matrix :=
  let transformed :=
    if (transformed.lookup innerInnerKey).isNone then transformed.insert innerInnerKey ∅
    else transformed
  let level1 := (transformed.lookup innerInnerKey).getD ∅
  let level1 := if (level1.lookup innerKey).isNone then level1.insert innerKey ∅ else level1
  let level2 := (level1.lookup innerKey).getD ∅
  transformed.insert innerInnerKey (level1.insert innerKey (level2.insert outerKey value))

/-- The function `transformDataset` of `comparePEv2.go` (lines 209-227). -/
def transformDataset (original : Matrix) : Matrix :=
  original.entries.foldl
    (fun transformed outer =>
      outer.2.entries.foldl
        (fun transformed inner =>
          inner.2.entries.foldl
            (fun transformed innerInner =>
              transformStep transformed outer.1 inner.1 innerInner.1 innerInner.2)
            transformed)
        transformed)
    ∅

/-- The `(fileA, fileB, section, score)` quadruples of a matrix, in the order in which the
loops of `transformDataset` visit them. -/
def quads (m : Matrix) : List (String × String × String × Float64) :=
  m.entries.flatMap (fun outer =>
    outer.2.entries.flatMap (fun inner =>
      inner.2.entries.map (fun innerInner => (outer.1, inner.1, innerInner.1, innerInner.2))))

/-- No second-level or third-level map of the matrix is empty. -/
def NoEmptySubmap (m : Matrix) : Prop :=
  ∀ row ∈ m.entries, 0 < row.2.entries.length ∧ ∀ cell ∈ row.2.entries, 0 < cell.2.entries.length

instance (m : Matrix) : Decidable (NoEmptySubmap m) :=
  inferInstanceAs (Decidable (∀ row ∈ m.entries,
    0 < row.2.entries.length ∧ ∀ cell ∈ row.2.entries, 0 < cell.2.entries.length))

/-- The diagonal-free matrix `{"a": {"b": {}}, "b": {"a": {}}}` that `compareAllPEFiles`
builds for two files without a common section name. -/
def emptyCellMatrix : Matrix :=
  ((∅ : Matrix).insert "a" ((∅ : GoMap (GoMap Float64)).insert "b" ∅)).insert "b"
    ((∅ : GoMap (GoMap Float64)).insert "a" ∅)

/-- The matrix `{"a": {"b": {"text": 100}}}`. -/
def oneCellMatrix : Matrix :=
  (∅ : Matrix).insert "a"
    ((∅ : GoMap (GoMap Float64)).insert "b" ((∅ : GoMap Float64).insert "text" 100))

/-! ## Serializer -/

/-- The row of one first-level key written by `writeSimilarityMatrixToCSV` (lines 196-200). -/
def csvRow (formatFloat : Float64 → String) (headers : List String) (outerKey : String)
    (outerMap : GoMap Float64) : List String :=
  let row := List.replicate headers.length ""
  let row := row.set 0 outerKey
  (headers.drop 1).enum.foldl
    (fun row ih => row.set (ih.1 + 1) (formatFloat ((outerMap.lookup ih.2).getD 0)))
    row

/-- The function `writeSimilarityMatrixToCSV` of `comparePEv2.go` (lines 172-206), returning
the records handed to the CSV writer. The two `range` loops over `innerMap` visit its keys in
the orders `order1` and `order2`; `osCreate` is the outcome of `os.Create`, `formatFloat` is
`strconv.FormatFloat(_, 'f', -1, 64)`. Writes to the created file succeed. -/
def writeSimilarityMatrixToCSV (osCreate : String → Except String Unit)
    (formatFloat : Float64 → String) (order1 order2 : List String)
    (filename : String) (innerMap : GoMap (GoMap Float64)) : Except String (List (List String)) :=
  match osCreate filename with
  | .error err => .error err
  | .ok _ =>
    let headers := order1.foldl (fun headers innerKey => headers ++ [innerKey]) []
    let headers := [""] ++ headers
    let written := [headers]
    let written := order2.foldl
      (fun written outerKey =>
        match innerMap.lookup outerKey with
        | none => written
        | some outerMap => written ++ [csvRow formatFloat headers outerKey outerMap])
      written
    .ok written

/-- A renderer for the two scores of `csvScenarioMap`. -/
def csvScenarioFormat (x : Float64) : String :=
  if x = 0 then "0" else "50"

/-- The per-section table `{"x": {"y": 50}, "y": {"x": 50}}`. -/
def csvScenarioMap : GoMap (GoMap Float64) :=
  ((∅ : GoMap (GoMap Float64)).insert "x" ((∅ : GoMap Float64).insert "y" 50)).insert "y"
    ((∅ : GoMap Float64).insert "x" 50)

/-- A little-endian `uint16` at an offset of an image. -/
def le16 (b : Bytes) (off : Nat) : Nat :=
  (b.getD off 0).toNat + 256 * (b.getD (off + 1) 0).toNat

/-- A little-endian `uint32` at an offset of an image. -/
def le32 (b : Bytes) (off : Nat) : Nat :=
  le16 b off + 65536 * le16 b (off + 2)

/-- The bytes before the first NUL as a string (section names are ASCII). -/
def cstring (b : Bytes) : String :=
  String.mk ((b.takeWhile (fun c => c != 0)).map (fun c => Char.ofNat c.toNat))

/-- The section-header loop of `debug/pe.NewFile`: `count` headers of 40 bytes from offset
`off`, each giving the name (bytes 0-7), `SizeOfRawData` (bytes 16-19, the field `Size`) and
`PointerToRawData` (bytes 20-23, the field `Offset`). A header the image does not hold in
full is an `EOF` or `unexpected EOF` error. Names that refer to the string table (leading
`/`) and sections with relocations are outside the model. -/
def peSectionHeaders (content : Bytes) : Nat → Nat → Except String (List SectionHeader)
  | 0, _ => .ok []
  | count + 1, off =>
    if content.length ≤ off then .error "EOF"
    else if content.length < off + 40 then .error "unexpected EOF"
    else if content.getD off 0 = 0x2F ∨ le16 content (off + 32) ≠ 0 then
      .error "image outside the model"
    else
      match peSectionHeaders content count (off + 40) with
      | .error err => .error err
      | .ok rest =>
        .ok (⟨cstring ((content.drop off).take 8), le32 content (off + 20),
          le32 content (off + 16)⟩ :: rest)

/-- The parser `debug/pe.NewFile` of the Go standard library on object-style images: it first
reads a window of 96 bytes and fails with `EOF` on a shorter file; an image that does not
start with `MZ` has its COFF file header at offset 0 (machine at 0, number of sections at 2,
symbol-table pointer at 8, optional-header size at 16), followed by the section headers. The
model covers the images with machine AMD64, I386, ARMNT or unknown, without symbol table and
without optional header; every other image of at least 96 bytes is answered with the error
`image outside the model`, and no statement evaluates the parser there. -/
def peNewFileObject (content : Bytes) : Except String (List SectionHeader) :=
  if content.length < 96 then .error "EOF"
  else if content.getD 0 0 = 0x4D ∧ content.getD 1 0 = 0x5A then
    .error "image outside the model"
  else if le16 content 0 ∉ [0x8664, 0x14c, 0x1c4, 0] then .error "image outside the model"
  else if le32 content 8 ≠ 0 ∨ le16 content 16 ≠ 0 then .error "image outside the model"
  else peSectionHeaders content (le16 content 2) 20

/-- An AMD64 COFF image with one section `.text`: the 20-byte file header, the 40-byte
section header declaring `declaredSize` bytes of raw data at offset 96, padding up to offset
96, and then `data`. -/
def objectImage (declaredSize : UInt8) (data : Bytes) : Bytes :=
  [0x64, 0x86, 1, 0] ++ List.replicate 16 0
    ++ [0x2E, 0x74, 0x65, 0x78, 0x74, 0, 0, 0] ++ List.replicate 8 0
    ++ [declaredSize, 0, 0, 0] ++ [96, 0, 0, 0] ++ List.replicate 16 0
    ++ List.replicate 36 0 ++ data

/-- A truncated image of 99 bytes: its section `.text` declares eight bytes from offset 96,
and the file ends after three of them. -/
def truncatedImage : File := ⟨objectImage 8 [0xAA, 0xBB, 0xCC], 0⟩

/-- A folder `withsub` that holds the image `A` and the sub-directory `sub` with the image
`D`; each image has one complete three-byte section `.text`. The walk visits the folder, `A`,
`sub` and `sub/D`. -/
def nestedWorld : World where
  osOpen := fun path =>
    if path = "withsub/A" then .ok (objectImage 3 [0x90, 0x90, 0x90])
    else if path = "withsub/sub/D" then .ok (objectImage 3 [0x90, 0x90, 0x91])
    else .error ("open " ++ path ++ ": no such file or directory")
  peNewFile := peNewFileObject
  walk := fun _ => [⟨"withsub", "withsub", true, none⟩, ⟨"withsub/A", "A", false, none⟩,
    ⟨"withsub/sub", "sub", true, none⟩, ⟨"withsub/sub/D", "D", false, none⟩]
  join := fun folder name => folder ++ "/" ++ name

/-! ## Facts about binary64 rounding -/

theorem roundHalfEven_eq_of_near (y : ℚ) (k : ℤ) (h : |y - k| < 1 / 2) :
    roundHalfEven y = k := by
  have h1 := abs_lt.mp h
  unfold roundHalfEven
  simp only
  by_cases hk : (k : ℚ) ≤ y
  · have hf : ⌊y⌋ = k := by
      rw [Int.floor_eq_iff]
      exact ⟨hk, by linarith [h1.2]⟩
    rw [hf, if_pos (by linarith [h1.2])]
  · have hf : ⌊y⌋ = k - 1 := by
      rw [Int.floor_eq_iff]
      push_cast
      constructor
      · linarith [h1.1]
      · linarith
    rw [hf]
    push_cast
    rw [if_neg (by linarith [h1.1]), if_pos (by linarith [h1.1])]
    ring

theorem roundHalfEven_sub_le (y : ℚ) : |(roundHalfEven y : ℚ) - y| ≤ 1 / 2 := by
  have h1 : (⌊y⌋ : ℚ) ≤ y := Int.floor_le y
  have h2 : y < ⌊y⌋ + 1 := Int.lt_floor_add_one y
  unfold roundHalfEven
  simp only
  rw [abs_le]
  split_ifs with ha hb hc
  · constructor <;> linarith
  · push_cast; constructor <;> linarith
  · have : y - ⌊y⌋ = 1 / 2 := le_antisymm (not_lt.mp hb) (not_lt.mp ha)
    constructor <;> linarith
  · have : y - ⌊y⌋ = 1 / 2 := le_antisymm (not_lt.mp hb) (not_lt.mp ha)
    push_cast; constructor <;> linarith

theorem intLog_two_eq (x : ℚ) (z : ℤ) (h1 : (2 : ℚ) ^ z ≤ x) (h2 : x < 2 ^ (z + 1)) :
    Int.log 2 x = z := by
  have hx : 0 < x := lt_of_lt_of_le (by positivity) h1
  apply le_antisymm
  · have := (Int.lt_zpow_iff_log_lt (b := 2) (by norm_num) hx (x := z + 1)).mp
      (by exact_mod_cast h2)
    omega
  · exact (Int.zpow_le_iff_le_log (b := 2) (by norm_num) hx).mp (by exact_mod_cast h1)

/-- Evaluation of `roundF64` at a positive argument from its binade and nearest significand. -/
theorem roundF64_eval (x : ℚ) (e k : ℤ) (h1 : (2 : ℚ) ^ (e + 52) ≤ x)
    (h2 : x < 2 ^ (e + 52 + 1)) (hk : |x / 2 ^ e - k| < 1 / 2) :
    roundF64 x = k * 2 ^ e := by
  have hx : 0 < x := lt_of_lt_of_le (by positivity) h1
  have hl : Int.log 2 |x| = e + 52 := by
    rw [abs_of_pos hx]; exact intLog_two_eq x _ h1 h2
  unfold roundF64
  rw [if_neg hx.ne']
  simp only [hl]
  have : e + 52 - 52 = e := by ring
  rw [this, roundHalfEven_eq_of_near _ k hk]

theorem roundF64_one : roundF64 1 = 1 := by
  rw [roundF64_eval 1 (-52) (2 ^ 52) (by norm_num) (by norm_num) (by norm_num)]
  norm_num

theorem roundF64_hundred : roundF64 100 = 100 := by
  rw [roundF64_eval 100 (-46) (100 * 2 ^ 46) (by norm_num) (by norm_num) (by norm_num)]
  norm_num

/-- Rounding to binary64 moves a non-negative value by at most the fraction `2⁻⁵³` of it. -/
theorem roundF64_sub_le (x : ℚ) (hx : 0 ≤ x) : |roundF64 x - x| ≤ x / 2 ^ 53 := by
  rcases hx.eq_or_lt with h0 | hpos
  · subst h0; simp [roundF64]
  · unfold roundF64
    rw [if_neg hpos.ne', abs_of_pos hpos]
    simp only
    set L := Int.log 2 x with hL
    have hle : (2 : ℚ) ^ L ≤ x := by
      have := Int.zpow_log_le_self (b := 2) (by norm_num) hpos
      simpa using this
    have hp : (0 : ℚ) < 2 ^ (L - 52) := by positivity
    have hr := roundHalfEven_sub_le (x / 2 ^ (L - 52))
    have key : (roundHalfEven (x / 2 ^ (L - 52)) : ℚ) * 2 ^ (L - 52) - x
        = ((roundHalfEven (x / 2 ^ (L - 52)) : ℚ) - x / 2 ^ (L - 52)) * 2 ^ (L - 52) := by
      field_simp
    rw [key, abs_mul, abs_of_pos hp]
    have h53 : (2 : ℚ) ^ (L - 52) = 2 ^ L / 2 ^ 52 := by
      rw [zpow_sub₀ (by norm_num : (2 : ℚ) ≠ 0)]
      norm_num
    calc |(roundHalfEven (x / 2 ^ (L - 52)) : ℚ) - x / 2 ^ (L - 52)| * 2 ^ (L - 52)
        ≤ 1 / 2 * 2 ^ (L - 52) := by gcongr
      _ = 2 ^ L / 2 ^ 53 := by rw [h53]; ring
      _ ≤ x / 2 ^ 53 := by gcongr

theorem roundF64_bounds (x : ℚ) (hx : 0 ≤ x) :
    x * (1 - 1 / 2 ^ 53) ≤ roundF64 x ∧ roundF64 x ≤ x * (1 + 1 / 2 ^ 53) := by
  have h := abs_le.mp (roundF64_sub_le x hx)
  constructor
  · linarith [h.1]
  · linarith [h.2]

theorem roundF64_nonneg (x : ℚ) (hx : 0 ≤ x) : 0 ≤ roundF64 x := by
  have h := (roundF64_bounds x hx).1
  have : 0 ≤ x * (1 - 1 / 2 ^ 53) := mul_nonneg hx (by norm_num)
  linarith

theorem roundF64_pos (x : ℚ) (hx : 0 < x) : 0 < roundF64 x := by
  have h := (roundF64_bounds x hx.le).1
  have : 0 < x * (1 - 1 / 2 ^ 53) := mul_pos hx (by norm_num)
  linarith

/-! ## SimilarityScorer -/

theorem foldl_count (p : Nat → Prop) [DecidablePred p] (l : List Nat) (acc : Nat) :
    l.foldl (fun m i => if p i then m + 1 else m) acc
      = acc + (l.filter (fun i => decide (p i))).length := by
  induction l generalizing acc with
  | nil => simp
  | cons x xs ih =>
    simp only [List.foldl_cons, List.filter_cons]
    rw [ih]
    by_cases h : p x <;> simp [h]; omega

theorem totalBytes_eq_min (a b : Bytes) :
    (if a.length < b.length then a.length else b.length) = min a.length b.length := by
  split_ifs with h <;> omega

theorem matchingBytes_eq (a b : Bytes) :
    (List.range (min a.length b.length)).foldl
      (fun matchingBytes i =>
        if a.getD i 0 = b.getD i 0 then matchingBytes + 1 else matchingBytes) 0
      = refMatches a b := by
  rw [foldl_count (fun i => a.getD i 0 = b.getD i 0), Nat.zero_add, refMatches]
  congr 1
  apply List.filter_congr
  intro i hi
  rw [List.mem_range] at hi
  have ha : i < a.length := lt_of_lt_of_le hi (min_le_left _ _)
  have hb : i < b.length := lt_of_lt_of_le hi (min_le_right _ _)
  simp [List.getD_eq_getElem?_getD, List.getElem?_eq_getElem ha, List.getElem?_eq_getElem hb]

/-- The value of `compareBytes` in terms of the counted matches and the compared length. -/
theorem compareBytes_eq (a b : Bytes) :
    compareBytes a b =
      if a = [] ∨ b = [] then 0
      else f64mul (f64div (float64 (refMatches a b)) (float64 (min a.length b.length))) 100 := by
  unfold compareBytes
  simp only [List.length_eq_zero, totalBytes_eq_min, matchingBytes_eq]

theorem refMatches_comm (a b : Bytes) : refMatches a b = refMatches b a := by
  unfold refMatches
  rw [min_comm]
  congr 1
  apply List.filter_congr
  intro i _
  simp [eq_comm]

theorem refMatches_self (a : Bytes) : refMatches a a = a.length := by
  unfold refMatches
  simp

theorem refMatches_append_left (a b x : Bytes) (h : b.length ≤ a.length) :
    refMatches (a ++ x) b = refMatches a b := by
  unfold refMatches
  have h1 : min (a ++ x).length b.length = min a.length b.length := by
    rw [List.length_append]; omega
  rw [h1]
  congr 1
  apply List.filter_congr
  intro i hi
  rw [List.mem_range] at hi
  have ha : i < a.length := lt_of_lt_of_le hi (min_le_left _ _)
  rw [List.getElem?_append_left ha]

theorem min_append_left (a b x : Bytes) (h : b.length ≤ a.length) :
    min (a ++ x).length b.length = min a.length b.length := by
  rw [List.length_append]; omega

/-- The score seen through exact arithmetic: the four roundings of `compareBytes` move it
away from `100 * m / n` by at most the fraction `2⁻⁵⁰`. -/
theorem rounded_score_near (m n : Nat) (hn : 0 < n) :
    |f64mul (f64div (float64 m) (float64 n)) 100 - 100 * (m : ℚ) / (n : ℚ)|
      ≤ 100 * (m : ℚ) / (n : ℚ) / 2 ^ 50 := by
  have hm0 : (0 : ℚ) ≤ m := Nat.cast_nonneg m
  have hn0 : (0 : ℚ) < n := by exact_mod_cast hn
  obtain ⟨hM1, hM2⟩ := roundF64_bounds (m : ℚ) hm0
  obtain ⟨hN1, hN2⟩ := roundF64_bounds (n : ℚ) hn0.le
  have hMnn : 0 ≤ roundF64 (m : ℚ) := roundF64_nonneg _ hm0
  have hNpos : 0 < roundF64 (n : ℚ) := roundF64_pos _ hn0
  have hqnn : 0 ≤ roundF64 (m : ℚ) / roundF64 (n : ℚ) := div_nonneg hMnn hNpos.le
  obtain ⟨hQ1, hQ2⟩ := roundF64_bounds _ hqnn
  have hQnn : 0 ≤ roundF64 (roundF64 (m : ℚ) / roundF64 (n : ℚ)) := roundF64_nonneg _ hqnn
  have hpnn : 0 ≤ roundF64 (roundF64 (m : ℚ) / roundF64 (n : ℚ)) * 100 :=
    mul_nonneg hQnn (by norm_num)
  obtain ⟨hR1, hR2⟩ := roundF64_bounds _ hpnn
  have hlo : (0 : ℚ) < n * (1 - 1 / 2 ^ 53) := mul_pos hn0 (by norm_num)
  have hdivU : roundF64 (m : ℚ) / roundF64 (n : ℚ)
      ≤ (m * (1 + 1 / 2 ^ 53)) / (n * (1 - 1 / 2 ^ 53)) :=
    div_le_div₀ (mul_nonneg hm0 (by norm_num)) hM2 hlo hN1
  have hdivL : (m * (1 - 1 / 2 ^ 53)) / (n * (1 + 1 / 2 ^ 53))
      ≤ roundF64 (m : ℚ) / roundF64 (n : ℚ) :=
    div_le_div₀ hMnn hM1 hNpos hN2
  have hs : (0 : ℚ) ≤ (m : ℚ) / n := div_nonneg hm0 hn0.le
  have eU : (m * (1 + 1 / 2 ^ 53)) / (n * (1 - 1 / 2 ^ 53))
      = (m : ℚ) / n * ((1 + 1 / 2 ^ 53) / (1 - 1 / 2 ^ 53)) := by
    field_simp
  have eL : (m * (1 - 1 / 2 ^ 53)) / (n * (1 + 1 / 2 ^ 53))
      = (m : ℚ) / n * ((1 - 1 / 2 ^ 53) / (1 + 1 / 2 ^ 53)) := by
    field_simp
  rw [eU] at hdivU
  rw [eL] at hdivL
  unfold f64mul f64div float64
  set s := (m : ℚ) / n with hsdef
  set q := roundF64 (m : ℚ) / roundF64 (n : ℚ) with hq
  set Q := roundF64 q with hQ
  set R := roundF64 (Q * 100) with hR
  have e100 : 100 * (m : ℚ) / (n : ℚ) = 100 * s := by rw [hsdef]; ring
  rw [e100, abs_le]
  have hQU : Q ≤ s * ((1 + 1 / 2 ^ 53) / (1 - 1 / 2 ^ 53)) * (1 + 1 / 2 ^ 53) :=
    le_trans hQ2 (mul_le_mul_of_nonneg_right hdivU (by norm_num))
  have hQL : s * ((1 - 1 / 2 ^ 53) / (1 + 1 / 2 ^ 53)) * (1 - 1 / 2 ^ 53) ≤ Q :=
    le_trans (mul_le_mul_of_nonneg_right hdivL (by norm_num)) hQ1
  have hRU : R ≤ s * ((1 + 1 / 2 ^ 53) / (1 - 1 / 2 ^ 53)) * (1 + 1 / 2 ^ 53) * 100
      * (1 + 1 / 2 ^ 53) :=
    le_trans hR2 (mul_le_mul_of_nonneg_right
      (mul_le_mul_of_nonneg_right hQU (by norm_num)) (by norm_num))
  have hRL : s * ((1 - 1 / 2 ^ 53) / (1 + 1 / 2 ^ 53)) * (1 - 1 / 2 ^ 53) * 100
      * (1 - 1 / 2 ^ 53) ≤ R :=
    le_trans (mul_le_mul_of_nonneg_right
      (mul_le_mul_of_nonneg_right hQL (by norm_num)) (by norm_num)) hR1
  have cU : ((1 + 1 / 2 ^ 53) / (1 - 1 / 2 ^ 53)) * (1 + 1 / 2 ^ 53) * 100 * (1 + 1 / 2 ^ 53)
      ≤ (100 + 100 / 2 ^ 50 : ℚ) := by norm_num
  have cL : (100 - 100 / 2 ^ 50 : ℚ)
      ≤ ((1 - 1 / 2 ^ 53) / (1 + 1 / 2 ^ 53)) * (1 - 1 / 2 ^ 53) * 100 * (1 - 1 / 2 ^ 53) := by
    norm_num
  have hU := mul_le_mul_of_nonneg_left cU hs
  have hL := mul_le_mul_of_nonneg_left cL hs
  constructor
  · linarith
  · linarith

theorem float64_one : float64 1 = 1 := by
  unfold float64
  rw [Nat.cast_one, roundF64_one]

theorem float64_two : float64 2 = 2 := by
  unfold float64
  rw [roundF64_eval ((2 : ℕ) : ℚ) (-51) (2 ^ 52) (by norm_num) (by norm_num) (by norm_num)]
  norm_num

theorem float64_three : float64 3 = 3 := by
  unfold float64
  rw [roundF64_eval ((3 : ℕ) : ℚ) (-51) (3 * 2 ^ 51) (by norm_num) (by norm_num) (by norm_num)]
  norm_num

theorem f64_third_times_hundred :
    f64mul (f64div 1 3) 100 = 4691249611844266 / 2 ^ 47 := by
  have h1 : f64div 1 3 = 6004799503160661 / 2 ^ 54 := by
    unfold f64div
    rw [roundF64_eval (1 / 3) (-54) 6004799503160661 (by norm_num) (by norm_num)
      (by norm_num [abs_lt])]
    norm_num
  rw [h1]
  unfold f64mul
  rw [roundF64_eval (6004799503160661 / 2 ^ 54 * 100) (-47) 4691249611844266 (by norm_num)
    (by norm_num) (by norm_num [abs_lt])]
  norm_num

theorem f64_half_times_hundred : f64mul (f64div 1 2) 100 = 50 := by
  have h1 : f64div 1 2 = 1 / 2 := by
    unfold f64div
    rw [roundF64_eval (1 / 2) (-53) (2 ^ 52) (by norm_num) (by norm_num) (by norm_num)]
    norm_num
  rw [h1]
  unfold f64mul
  rw [roundF64_eval (1 / 2 * 100) (-47) (50 * 2 ^ 47) (by norm_num) (by norm_num)
    (by norm_num)]
  norm_num

theorem f64_full_match (n : Nat) (hn : 0 < n) :
    f64mul (f64div (float64 n) (float64 n)) 100 = 100 := by
  have hpos : 0 < roundF64 (n : ℚ) := roundF64_pos _ (by exact_mod_cast hn)
  unfold f64mul f64div float64
  rw [div_self hpos.ne', roundF64_one, one_mul, roundF64_hundred]

/-- C1 (amended): `compareBytes a b` is `0` when `a` or `b` is empty; otherwise it is the
binary64 value of `(matches / n) * 100` evaluated in that order, each operation rounded to
nearest, where `n = min (len a) (len b)` and `matches` counts the positions `i < n` with
`a[i] == b[i]`. It agrees with the exact reference score `100 * matches / n` up to the
fraction `2⁻⁵⁰` of that score. -/
theorem compareBytes_rounded_reference (a b : Bytes) :
    compareBytes a b =
        (if a = [] ∨ b = [] then 0
         else f64mul (f64div (float64 (refMatches a b)) (float64 (min a.length b.length))) 100)
      ∧ |compareBytes a b - refScore a b| ≤ refScore a b / 2 ^ 50 := by
  refine ⟨compareBytes_eq a b, ?_⟩
  rw [compareBytes_eq, refScore]
  by_cases h : a = [] ∨ b = []
  · simp [h]
  · rw [if_neg h, if_neg h]
    push_neg at h
    have hn : 0 < min a.length b.length :=
      lt_min (List.length_pos.mpr h.1) (List.length_pos.mpr h.2)
    exact rounded_score_near _ _ hn

/-- C1 (counterexample): with one match in three compared bytes the program returns the
binary64 value `33.33333333333333` (`4691249611844266 / 2^47`), which is not the reference
score `100 * 1 / 3`. -/
theorem compareBytes_differs_from_reference :
    compareBytes [1, 0, 0] [1, 1, 1] = 4691249611844266 / 2 ^ 47
      ∧ refScore [1, 0, 0] [1, 1, 1] = 100 / 3
      ∧ compareBytes [1, 0, 0] [1, 1, 1] ≠ refScore [1, 0, 0] [1, 1, 1] := by
  have hm : refMatches [1, 0, 0] [1, 1, 1] = 1 := by decide
  have hc : compareBytes [1, 0, 0] [1, 1, 1] = 4691249611844266 / 2 ^ 47 := by
    rw [compareBytes_eq, if_neg (by simp), hm]
    simp only [List.length_cons, List.length_nil, min_self]
    rw [float64_one, float64_three, f64_third_times_hundred]
  have hr : refScore [1, 0, 0] [1, 1, 1] = 100 / 3 := by
    rw [refScore, if_neg (by simp), hm]
    norm_num
  refine ⟨hc, hr, ?_⟩
  rw [hc, hr]
  norm_num

/-- C2 (amended): appending bytes to an input that is at least as long as the other one does
not change the score, and the score is that of the two prefixes of length
`min (len a) (len b)`. -/
theorem compareBytes_append_longer (a b x : Bytes) :
    (b.length ≤ a.length → compareBytes (a ++ x) b = compareBytes a b)
      ∧ (a.length ≤ b.length → compareBytes a (b ++ x) = compareBytes a b)
      ∧ compareBytes a b
          = compareBytes (a.take (min a.length b.length)) (b.take (min a.length b.length)) := by
  have key : ∀ (a b x : Bytes), b.length ≤ a.length →
      compareBytes (a ++ x) b = compareBytes a b := by
    intro a b x h
    rw [compareBytes_eq, compareBytes_eq, refMatches_append_left a b x h,
      min_append_left a b x h]
    by_cases hb : b = []
    · simp [hb]
    · have ha : a ≠ [] := by
        intro ha
        subst ha
        simp at h
        exact hb h
      have hax : a ++ x ≠ [] := by simp [ha]
      simp [hb, ha]
  have comm : ∀ (a b : Bytes), compareBytes a b = compareBytes b a := by
    intro a b
    rw [compareBytes_eq, compareBytes_eq, refMatches_comm a b, min_comm a.length b.length]
    simp only [or_comm]
  refine ⟨key a b x, ?_, ?_⟩
  · intro h
    rw [comm a (b ++ x), key b a x h, comm b a]
  · rcases le_total b.length a.length with h | h
    · have hb : b.take (min a.length b.length) = b := by
        rw [min_eq_right h]; exact List.take_length _
      have hsplit : a = a.take (min a.length b.length) ++ a.drop (min a.length b.length) :=
        (List.take_append_drop _ a).symm
      rw [hb]
      conv_lhs => rw [hsplit]
      apply key
      rw [List.length_take]
      omega
    · have ha : a.take (min a.length b.length) = a := by
        rw [min_eq_left h]; exact List.take_length _
      have hsplit : b = b.take (min a.length b.length) ++ b.drop (min a.length b.length) :=
        (List.take_append_drop _ b).symm
      rw [ha]
      conv_lhs => rw [hsplit]
      rw [comm a, key _ a _ (by rw [List.length_take]; omega), comm]

/-- C2 (witness): the amended statement at `a = [1, 2]`, `b = [1]`, `x = [3]`. -/
theorem compareBytes_append_longer_witness :
    compareBytes ([1, 2] ++ [3]) [1] = compareBytes [1, 2] [1] :=
  (compareBytes_append_longer [1, 2] [1] [3]).1 (by decide)

/-- C2 (counterexample): appending `[3]` to the shorter input `[1]` against `[1, 2]` lowers
the score from `100` to `50`. -/
theorem compareBytes_append_shorter_changes :
    compareBytes ([1] ++ [3]) [1, 2] = 50 ∧ compareBytes [1] [1, 2] = 100
      ∧ compareBytes ([1] ++ [3]) [1, 2] ≠ compareBytes [1] [1, 2] := by
  have h1 : compareBytes ([1] ++ [3]) [1, 2] = 50 := by
    have hm : refMatches ([1] ++ [3]) [1, 2] = 1 := by decide
    rw [compareBytes_eq, if_neg (by simp), hm]
    simp only [List.length_cons, List.length_nil, List.length_append, min_self]
    rw [float64_one, float64_two, f64_half_times_hundred]
  have h2 : compareBytes [1] [1, 2] = 100 := by
    have hm : refMatches [1] [1, 2] = 1 := by decide
    rw [compareBytes_eq, if_neg (by simp), hm]
    have hmin : min ([1] : Bytes).length ([1, 2] : Bytes).length = 1 := by decide
    rw [hmin]
    exact f64_full_match 1 (by norm_num)
  refine ⟨h1, h2, ?_⟩
  rw [h1, h2]
  norm_num

/-- C3: `compareBytes a b = compareBytes b a` for all byte sequences. -/
theorem compareBytes_comm (a b : Bytes) : compareBytes a b = compareBytes b a := by
  rw [compareBytes_eq, compareBytes_eq, refMatches_comm a b, min_comm a.length b.length]
  simp only [or_comm]

/-- C4: a non-empty byte sequence compared with itself scores exactly `100`. -/
theorem compareBytes_self (a : Bytes) (h : a ≠ []) : compareBytes a a = 100 := by
  rw [compareBytes_eq, refMatches_self, min_self]
  simp only [or_self, if_neg h]
  exact f64_full_match _ (List.length_pos.mpr h)

/-- C4 (witness): the section `[0x90, 0x90, 0x90]` of end-to-end scenario 1. -/
theorem compareBytes_self_witness :
    ([0x90, 0x90, 0x90] : Bytes) ≠ [] ∧ compareBytes [0x90, 0x90, 0x90] [0x90, 0x90, 0x90] = 100 :=
  ⟨by decide, compareBytes_self [0x90, 0x90, 0x90] (by decide)⟩

/-! ## MatrixTransposer -/

theorem lookup_getD_empty {V : Type} (o : Option (GoMap V)) (k : String) :
    (o.getD ∅).lookup k = o.bind (fun x => x.lookup k) := by
  cases o <;> simp

theorem lookup_transformStep (t : Matrix) (o i ii : String) (v : Float64) (a : String) :
    (transformStep t o i ii v).lookup a =
      if a = ii then
        some ((if (((t.lookup ii).getD ∅).lookup i).isNone then ((t.lookup ii).getD ∅).insert i ∅
               else (t.lookup ii).getD ∅).insert i
              (((((t.lookup ii).getD ∅).lookup i).getD ∅).insert o v))
      else t.lookup a := by
  unfold transformStep
  by_cases ha : a = ii
  · subst ha
    rw [if_pos rfl]
    simp only [AList.lookup_insert]
    cases h1 : t.lookup a with
    | none =>
      simp only [Option.isNone_none, if_true, AList.lookup_insert, Option.getD_some,
        Option.getD_none, AList.lookup_empty]
    | some x =>
      simp only [Option.isNone_some, Bool.false_eq_true, if_false, h1, Option.getD_some]
      cases h2 : x.lookup i with
      | none => simp
      | some y => simp [h2]
  · rw [if_neg ha, AList.lookup_insert_ne ha]
    split_ifs with h
    · rw [AList.lookup_insert_ne ha]
    · rfl

theorem lookup3_transformStep (t : Matrix) (o i ii : String) (v : Float64) (a b c : String) :
    lookup3 (transformStep t o i ii v) a b c =
      if a = ii ∧ b = i ∧ c = o then some v else lookup3 t a b c := by
  unfold lookup3
  rw [lookup_transformStep]
  by_cases ha : a = ii
  · subst ha
    simp only [if_pos, Option.some_bind, true_and]
    by_cases hb : b = i
    · subst hb
      simp only [AList.lookup_insert, Option.some_bind, true_and]
      by_cases hc : c = o
      · subst hc
        simp
      · rw [if_neg hc, AList.lookup_insert_ne hc, lookup_getD_empty, lookup_getD_empty]
        cases t.lookup a <;> simp
    · rw [AList.lookup_insert_ne hb]
      have : ¬ (b = i ∧ c = o) := fun h => hb h.1
      rw [if_neg this]
      split_ifs with h
      · rw [AList.lookup_insert_ne hb, lookup_getD_empty]
        cases t.lookup a <;> simp
      · rw [lookup_getD_empty]
        cases t.lookup a <;> simp
  · have : ¬ (a = ii ∧ b = i ∧ c = o) := fun h => ha h.1
    rw [if_neg ha, if_neg this]

theorem lookup2_transformStep_isSome (t : Matrix) (o i ii : String) (v : Float64)
    (a b : String) :
    (lookup2 (transformStep t o i ii v) a b).isSome =
      (decide (a = ii ∧ b = i) || (lookup2 t a b).isSome) := by
  unfold lookup2
  rw [lookup_transformStep]
  by_cases ha : a = ii
  · subst ha
    simp only [if_pos, Option.some_bind, true_and]
    by_cases hb : b = i
    · subst hb
      simp
    · rw [AList.lookup_insert_ne hb]
      simp only [hb, decide_False, Bool.false_or]
      split_ifs with h
      · rw [AList.lookup_insert_ne hb, lookup_getD_empty]
      · rw [lookup_getD_empty]
  · simp [ha]

theorem lookup_transformStep_isSome (t : Matrix) (o i ii : String) (v : Float64) (a : String) :
    ((transformStep t o i ii v).lookup a).isSome = (decide (a = ii) || (t.lookup a).isSome) := by
  rw [lookup_transformStep]
  by_cases ha : a = ii
  · simp [ha]
  · simp [ha]

theorem foldl_flatMap_eq {α β γ : Type} (f : γ → β → γ) (g : α → List β) (l : List α)
    (init : γ) :
    (l.flatMap g).foldl f init = l.foldl (fun acc x => (g x).foldl f acc) init := by
  induction l generalizing init with
  | nil => rfl
  | cons x xs ih => simp [List.flatMap_cons, List.foldl_append, ih]

theorem transformDataset_eq_foldl_quads (m : Matrix) :
    transformDataset m =
      (quads m).foldl (fun t q => transformStep t q.1 q.2.1 q.2.2.1 q.2.2.2) ∅ := by
  unfold transformDataset quads
  rw [foldl_flatMap_eq]
  congr 1
  funext t outer
  rw [foldl_flatMap_eq]
  congr 1
  funext t inner
  rw [List.foldl_map]

theorem mem_quads (m : Matrix) (a b c : String) (v : Float64) :
    (a, b, c, v) ∈ quads m ↔ lookup3 m a b c = some v := by
  unfold quads lookup3
  simp only [List.mem_flatMap, List.mem_map, Prod.mk.injEq]
  constructor
  · rintro ⟨outer, ho, inner, hi, innerInner, hii, h1, h2, h3, h4⟩
    obtain ⟨ok, ov⟩ := outer
    obtain ⟨ik, iv⟩ := inner
    obtain ⟨iik, iiv⟩ := innerInner
    simp only at h1 h2 h3 h4 hi hii
    subst h1 h2 h3 h4
    have e1 : m.lookup ok = some ov := AList.mem_lookup_iff.mpr ho
    have e2 : ov.lookup ik = some iv := AList.mem_lookup_iff.mpr hi
    have e3 : iv.lookup iik = some iiv := AList.mem_lookup_iff.mpr hii
    simp [e1, e2, e3]
  · intro h
    cases e1 : m.lookup a with
    | none => simp [e1] at h
    | some ov =>
      cases e2 : ov.lookup b with
      | none => simp [e1, e2] at h
      | some iv =>
        have e3 : iv.lookup c = some v := by simpa [e1, e2] using h
        exact ⟨⟨a, ov⟩, AList.mem_lookup_iff.mp e1, ⟨b, iv⟩, AList.mem_lookup_iff.mp e2,
          ⟨c, v⟩, AList.mem_lookup_iff.mp e3, rfl, rfl, rfl, rfl⟩

theorem lookup3_foldl_of_not_mem (L : List (String × String × String × Float64)) (t : Matrix)
    (a b c : String) (h : ∀ v, (c, b, a, v) ∉ L) :
    lookup3 (L.foldl (fun t q => transformStep t q.1 q.2.1 q.2.2.1 q.2.2.2) t) a b c
      = lookup3 t a b c := by
  induction L generalizing t with
  | nil => rfl
  | cons q L ih =>
    rw [List.foldl_cons, ih _ (fun v hv => h v (List.mem_cons_of_mem _ hv)),
      lookup3_transformStep]
    obtain ⟨q1, q2, q3, q4⟩ := q
    rw [if_neg]
    rintro ⟨rfl, rfl, rfl⟩
    exact h q4 (List.mem_cons_self _ _)

theorem lookup3_foldl_of_mem (L : List (String × String × String × Float64)) (t : Matrix)
    (a b c : String) (v : Float64) (hv : (c, b, a, v) ∈ L)
    (hfun : ∀ v', (c, b, a, v') ∈ L → v' = v) :
    lookup3 (L.foldl (fun t q => transformStep t q.1 q.2.1 q.2.2.1 q.2.2.2) t) a b c
      = some v := by
  induction L generalizing t with
  | nil => simp at hv
  | cons q L ih =>
    rw [List.foldl_cons]
    by_cases hL : (c, b, a, v) ∈ L
    · exact ih _ hL (fun v' hv' => hfun v' (List.mem_cons_of_mem _ hv'))
    · have hnone : ∀ v', (c, b, a, v') ∉ L := by
        intro v' hv'
        have := hfun v' (List.mem_cons_of_mem _ hv')
        subst this
        exact hL hv'
      rw [lookup3_foldl_of_not_mem L _ a b c hnone, lookup3_transformStep]
      have hq : q = (c, b, a, v) := by
        rcases List.mem_cons.mp hv with h | h
        · exact h.symm
        · exact absurd h hL
      subst hq
      simp

/-- The transposed matrix read at `[section][fileB][fileA]` is the input read at
`[fileA][fileB][section]`. -/
theorem lookup3_transformDataset (m : Matrix) (s fB fA : String) :
    lookup3 (transformDataset m) s fB fA = lookup3 m fA fB s := by
  rw [transformDataset_eq_foldl_quads]
  cases h : lookup3 m fA fB s with
  | none =>
    rw [lookup3_foldl_of_not_mem]
    · simp [lookup3]
    · intro v hv
      rw [mem_quads, h] at hv
      exact Option.noConfusion hv
  | some v =>
    apply lookup3_foldl_of_mem
    · exact (mem_quads m fA fB s v).mpr h
    · intro v' hv'
      rw [mem_quads, h] at hv'
      exact (Option.some.inj hv').symm

theorem lookup2_foldl_isSome (L : List (String × String × String × Float64)) (t : Matrix)
    (a b : String) :
    (lookup2 (L.foldl (fun t q => transformStep t q.1 q.2.1 q.2.2.1 q.2.2.2) t) a b).isSome
        = true
      ↔ (∃ c v, (c, b, a, v) ∈ L) ∨ (lookup2 t a b).isSome = true := by
  induction L generalizing t with
  | nil => simp
  | cons q L ih =>
    obtain ⟨q1, q2, q3, q4⟩ := q
    rw [List.foldl_cons, ih, lookup2_transformStep_isSome]
    simp only [List.mem_cons, Prod.mk.injEq, Bool.or_eq_true, decide_eq_true_eq]
    constructor
    · rintro (⟨c, v, h⟩ | ⟨h1, h2⟩ | h)
      · exact Or.inl ⟨c, v, Or.inr h⟩
      · exact Or.inl ⟨q1, q4, Or.inl ⟨rfl, h2, h1, rfl⟩⟩
      · exact Or.inr h
    · rintro (⟨c, v, ⟨h1, h2, h3, h4⟩ | h⟩ | h)
      · exact Or.inr (Or.inl ⟨h3, h2⟩)
      · exact Or.inl ⟨c, v, h⟩
      · exact Or.inr (Or.inr h)

theorem lookup_foldl_isSome (L : List (String × String × String × Float64)) (t : Matrix)
    (a : String) :
    ((L.foldl (fun t q => transformStep t q.1 q.2.1 q.2.2.1 q.2.2.2) t).lookup a).isSome
        = true
      ↔ (∃ c b v, (c, b, a, v) ∈ L) ∨ (t.lookup a).isSome = true := by
  induction L generalizing t with
  | nil => simp
  | cons q L ih =>
    obtain ⟨q1, q2, q3, q4⟩ := q
    rw [List.foldl_cons, ih, lookup_transformStep_isSome]
    simp only [List.mem_cons, Prod.mk.injEq, Bool.or_eq_true, decide_eq_true_eq]
    constructor
    · rintro (⟨c, b, v, h⟩ | h1 | h)
      · exact Or.inl ⟨c, b, v, Or.inr h⟩
      · exact Or.inl ⟨q1, q2, q4, Or.inl ⟨rfl, rfl, h1, rfl⟩⟩
      · exact Or.inr h
    · rintro (⟨c, b, v, ⟨h1, h2, h3, h4⟩ | h⟩ | h)
      · exact Or.inr (Or.inl h3)
      · exact Or.inl ⟨c, b, v, h⟩
      · exact Or.inr (Or.inr h)

/-- A second-level key `[section][fileB]` of the transposed matrix exists exactly when some
input quadruple has that section and second file. -/
theorem lookup2_transformDataset_isSome (m : Matrix) (s fB : String) :
    (lookup2 (transformDataset m) s fB).isSome = true
      ↔ ∃ fA v, lookup3 m fA fB s = some v := by
  rw [transformDataset_eq_foldl_quads, lookup2_foldl_isSome]
  simp [mem_quads, lookup2]

/-- A first-level key `[section]` of the transposed matrix exists exactly when some input
quadruple has that section. -/
theorem lookup_transformDataset_isSome (m : Matrix) (s : String) :
    ((transformDataset m).lookup s).isSome = true
      ↔ ∃ fA fB v, lookup3 m fA fB s = some v := by
  rw [transformDataset_eq_foldl_quads, lookup_foldl_isSome]
  simp [mem_quads]

theorem exists_lookup_of_nonempty {V : Type} (x : GoMap V) (h : 0 < x.entries.length) :
    ∃ k v, x.lookup k = some v := by
  cases hx : x.entries with
  | nil => rw [hx] at h; simp at h
  | cons e es =>
    obtain ⟨k, v⟩ := e
    refine ⟨k, v, AList.mem_lookup_iff.mpr ?_⟩
    rw [hx]
    exact List.mem_cons_self _ _

theorem exists_lookup3_of_lookup (m : Matrix) (h : NoEmptySubmap m) (a : String)
    (ha : (m.lookup a).isSome = true) : ∃ b c v, lookup3 m a b c = some v := by
  obtain ⟨row, hrow⟩ := Option.isSome_iff_exists.mp ha
  have hmem : (⟨a, row⟩ : Sigma (fun _ : String => GoMap (GoMap Float64))) ∈ m.entries :=
    AList.mem_lookup_iff.mp hrow
  obtain ⟨hne, hcells⟩ := h _ hmem
  obtain ⟨b, cell, hb⟩ := exists_lookup_of_nonempty row hne
  have hcm : (⟨b, cell⟩ : Sigma (fun _ : String => GoMap Float64)) ∈ row.entries :=
    AList.mem_lookup_iff.mp hb
  obtain ⟨c, v, hc⟩ := exists_lookup_of_nonempty cell (hcells _ hcm)
  exact ⟨b, c, v, by simp [lookup3, hrow, hb, hc]⟩

theorem exists_lookup3_of_lookup2 (m : Matrix) (h : NoEmptySubmap m) (a b : String)
    (hab : (lookup2 m a b).isSome = true) : ∃ c v, lookup3 m a b c = some v := by
  obtain ⟨cell, hcell⟩ := Option.isSome_iff_exists.mp hab
  unfold lookup2 at hcell
  cases hrow : m.lookup a with
  | none => simp [hrow] at hcell
  | some row =>
    have hb : row.lookup b = some cell := by simpa [hrow] using hcell
    have hmem : (⟨a, row⟩ : Sigma (fun _ : String => GoMap (GoMap Float64))) ∈ m.entries :=
      AList.mem_lookup_iff.mp hrow
    have hcm : (⟨b, cell⟩ : Sigma (fun _ : String => GoMap Float64)) ∈ row.entries :=
      AList.mem_lookup_iff.mp hb
    obtain ⟨c, v, hc⟩ := exists_lookup_of_nonempty cell ((h _ hmem).2 _ hcm)
    exact ⟨c, v, by simp [lookup3, hrow, hb, hc]⟩

theorem lookup_isSome_of_lookup3 (m : Matrix) (a b c : String) (v : Float64)
    (h : lookup3 m a b c = some v) : (m.lookup a).isSome = true := by
  unfold lookup3 at h
  cases hrow : m.lookup a with
  | none => simp [hrow] at h
  | some row => rfl

theorem lookup2_isSome_of_lookup3 (m : Matrix) (a b c : String) (v : Float64)
    (h : lookup3 m a b c = some v) : (lookup2 m a b).isSome = true := by
  unfold lookup3 at h
  unfold lookup2
  cases hrow : m.lookup a with
  | none => simp [hrow] at h
  | some row =>
    cases hb : row.lookup b with
    | none => simp [hrow, hb] at h
    | some cell => simp [hb]

/-- C5 (amended): for every matrix none of whose second-level and third-level maps is empty,
transposing twice gives back a matrix deep-equal to the original, with or without diagonal
entries. -/
theorem transformDataset_twice (m : Matrix) (h : NoEmptySubmap m) :
    DeepEq (transformDataset (transformDataset m)) m := by
  refine ⟨?_, ?_, ?_⟩
  · intro a
    rw [Bool.eq_iff_iff, lookup_transformDataset_isSome]
    constructor
    · rintro ⟨fA, fB, v, hv⟩
      rw [lookup3_transformDataset] at hv
      exact lookup_isSome_of_lookup3 m a fB fA v hv
    · intro ha
      obtain ⟨b, c, v, hv⟩ := exists_lookup3_of_lookup m h a ha
      exact ⟨c, b, v, by rw [lookup3_transformDataset]; exact hv⟩
  · intro a b
    rw [Bool.eq_iff_iff, lookup2_transformDataset_isSome]
    constructor
    · rintro ⟨fA, v, hv⟩
      rw [lookup3_transformDataset] at hv
      exact lookup2_isSome_of_lookup3 m a b fA v hv
    · intro hab
      obtain ⟨c, v, hv⟩ := exists_lookup3_of_lookup2 m h a b hab
      exact ⟨c, v, by rw [lookup3_transformDataset]; exact hv⟩
  · intro a b c
    rw [lookup3_transformDataset, lookup3_transformDataset]

/-- C5 (witness): the matrix `{"a": {"b": {"text": 100}}}` has no empty sub-map and is
recovered by transposing twice. -/
theorem transformDataset_twice_witness :
    NoEmptySubmap oneCellMatrix
      ∧ DeepEq (transformDataset (transformDataset oneCellMatrix)) oneCellMatrix :=
  ⟨by decide, transformDataset_twice oneCellMatrix (by decide)⟩

/-- C5 (counterexample): the matrix `{"a": {"b": {}}, "b": {"a": {}}}` has no diagonal entry;
its transpose is empty and so is the transpose of the transpose, so the key `"a"` is lost. -/
theorem transformDataset_twice_drops_empty :
    (∀ f, lookup2 emptyCellMatrix f f = none)
      ∧ (emptyCellMatrix.lookup "a").isSome = true
      ∧ ((transformDataset (transformDataset emptyCellMatrix)).lookup "a").isSome = false
      ∧ ¬ DeepEq (transformDataset (transformDataset emptyCellMatrix)) emptyCellMatrix := by
  have h2 : (emptyCellMatrix.lookup "a").isSome = true := by decide
  have h3 : ((transformDataset (transformDataset emptyCellMatrix)).lookup "a").isSome = false := by
    decide
  refine ⟨?_, h2, h3, ?_⟩
  · intro f
    unfold lookup2 emptyCellMatrix
    by_cases hb : f = "b"
    · subst hb
      decide
    · rw [AList.lookup_insert_ne hb]
      by_cases ha : f = "a"
      · subst ha
        decide
      · rw [AList.lookup_insert_ne ha]
        rfl
  · intro hd
    have := hd.1 "a"
    rw [h2, h3] at this
    exact Bool.noConfusion this

/-- C6: the output of `transformDataset` holds `score` at `[section][fileB][fileA]` exactly
when the input holds it at `[fileA][fileB][section]`, and it has no first-level or
second-level key that does not lead to such an entry. -/
theorem transformDataset_reindexes (m : Matrix) :
    (∀ s fB fA score,
        lookup3 (transformDataset m) s fB fA = some score ↔ lookup3 m fA fB s = some score)
      ∧ (∀ s, ((transformDataset m).lookup s).isSome = true
          ↔ ∃ fA fB score, lookup3 m fA fB s = some score)
      ∧ (∀ s fB, (lookup2 (transformDataset m) s fB).isSome = true
          ↔ ∃ fA score, lookup3 m fA fB s = some score) := by
  refine ⟨?_, lookup_transformDataset_isSome m, lookup2_transformDataset_isSome m⟩
  intro s fB fA score
  rw [lookup3_transformDataset]

/-! ## PairComparator -/

theorem lookup_foldl_compare (sections2 : GoMap Bytes)
    (L : List (Sigma (fun _ : String => Bytes))) (hL : L.NodupKeys) (init : GoMap Float64)
    (name : String) :
    (L.foldl
        (fun results entry =>
          match sections2.lookup entry.1 with
          | none => results
          | some content2 => results.insert entry.1 (compareBytes entry.2 content2))
        init).lookup name =
      match L.dlookup name, sections2.lookup name with
      | some content1, some content2 => some (compareBytes content1 content2)
      | _, _ => init.lookup name := by
  induction L generalizing init with
  | nil => simp
  | cons e L ih =>
    obtain ⟨k, c1⟩ := e
    rw [List.nodupKeys_cons] at hL
    rw [List.foldl_cons, ih hL.2]
    by_cases hk : name = k
    · subst hk
      have hnone : L.dlookup name = none := List.dlookup_eq_none.mpr hL.1
      rw [hnone, List.dlookup_cons_eq]
      cases h2 : sections2.lookup name with
      | none => simp
      | some c2 => simp
    · rw [List.dlookup_cons_ne _ _ hk]
      have hstep : (match sections2.lookup k with
          | none => init
          | some content2 => init.insert k (compareBytes c1 content2)).lookup name
            = init.lookup name := by
        cases sections2.lookup k with
        | none => rfl
        | some c2 => exact AList.lookup_insert_ne hk
      simp only [hstep]

/-- The result of the comparison loop, key by key. -/
theorem lookup_compareSections (sections1 sections2 : GoMap Bytes) (name : String) :
    (compareSections sections1 sections2).lookup name =
      match sections1.lookup name, sections2.lookup name with
      | some content1, some content2 => some (compareBytes content1 content2)
      | _, _ => none := by
  unfold compareSections
  rw [lookup_foldl_compare sections2 sections1.entries sections1.nodupKeys]
  rfl

/-- C7: when both files open and `ReadSectionsPE` yields the section maps `s1` and `s2`,
`comparePEFiles` succeeds and its result has a key exactly for the names present in both
maps, bound to `compareBytes s1[name] s2[name]`. -/
theorem comparePEFiles_common_sections (w : World) (file1 file2 : String) (f1 f2 : Bytes)
    (s1 s2 : GoMap Bytes) (h1 : w.osOpen file1 = .ok f1) (h2 : w.osOpen file2 = .ok f2)
    (hs1 : ReadSectionsPE w.peNewFile ⟨f1, 0⟩ = .ok s1)
    (hs2 : ReadSectionsPE w.peNewFile ⟨f2, 0⟩ = .ok s2) :
    ∃ results, comparePEFiles w file1 file2 = .ok results ∧
      ∀ name, results.lookup name =
        match s1.lookup name, s2.lookup name with
        | some content1, some content2 => some (compareBytes content1 content2)
        | _, _ => none := by
  refine ⟨compareSections s1 s2, ?_, lookup_compareSections s1 s2⟩
  unfold comparePEFiles
  simp only [h1, h2, hs1, hs2]

/-- C7 (witness): end-to-end scenario 3, file `A` with the sections `a`, `b` against file `B`
with the sections `b`, `c`. -/
theorem comparePEFiles_common_sections_witness :
    ∃ results, comparePEFiles demoWorld "dir/A" "dir/B" = .ok results ∧
      ∀ name, results.lookup name =
        match (((∅ : GoMap Bytes).insert "a" [1, 2]).insert "b" [3, 4]).lookup name,
          (((∅ : GoMap Bytes).insert "b" [3, 9]).insert "c" [7, 7]).lookup name with
        | some content1, some content2 => some (compareBytes content1 content2)
        | _, _ => none :=
  comparePEFiles_common_sections demoWorld "dir/A" "dir/B" [1, 2, 3, 4] [3, 9, 7, 7]
    (((∅ : GoMap Bytes).insert "a" [1, 2]).insert "b" [3, 4])
    (((∅ : GoMap Bytes).insert "b" [3, 9]).insert "c" [7, 7]) (by rfl) (by rfl) (by rfl) (by rfl)

theorem comparePEFiles_eq_ok (w : World) (file1 file2 : String) (f1 f2 : Bytes)
    (s1 s2 : GoMap Bytes) (h1 : w.osOpen file1 = .ok f1) (h2 : w.osOpen file2 = .ok f2)
    (hs1 : ReadSectionsPE w.peNewFile ⟨f1, 0⟩ = .ok s1)
    (hs2 : ReadSectionsPE w.peNewFile ⟨f2, 0⟩ = .ok s2) :
    comparePEFiles w file1 file2 = .ok (compareSections s1 s2) := by
  unfold comparePEFiles
  simp only [h1, h2, hs1, hs2]

/-! ## MatrixBuilder -/

theorem fileNames_nil : fileNames [] = [] := rfl

theorem fileNames_cons_dir (e : WalkEntry) (L : List WalkEntry) (h : e.IsDir = true) :
    fileNames (e :: L) = fileNames L := by
  simp [fileNames, List.filter_cons, h]

theorem fileNames_cons_file (e : WalkEntry) (L : List WalkEntry) (h : e.IsDir = false) :
    fileNames (e :: L) = e.Name :: fileNames L := by
  simp [fileNames, List.filter_cons, h]

theorem mem_fileNames_of_mem (e : WalkEntry) (L : List WalkEntry) (he : e ∈ L)
    (h : e.IsDir = false) : e.Name ∈ fileNames L := by
  unfold fileNames
  rw [List.mem_map]
  exact ⟨e, List.mem_filter.mpr ⟨he, by simp [h]⟩, rfl⟩

/-- The inner walk for the outer file `X` fills the row of `X` and touches no other row. -/
theorem innerWalk_spec (w : World) (folder X : String) (cmp : String → GoMap Float64)
    (L : List WalkEntry) (hL : ∀ e ∈ L, e.err = none)
    (hcmp : ∀ Y ∈ fileNames L, X ≠ Y →
      comparePEFiles w (w.join folder X) (w.join folder Y) = .ok (cmp Y))
    (M0 : Matrix) (row0 : GoMap (GoMap Float64)) (h0 : M0.lookup X = some row0) :
    ∃ M1 row1, walkFold (innerVisit w folder X) L M0 = .ok M1 ∧ M1.lookup X = some row1
      ∧ (∀ Y, row1.lookup Y = if Y ∈ fileNames L ∧ X ≠ Y then some (cmp Y) else row0.lookup Y)
      ∧ (∀ Z, Z ≠ X → M1.lookup Z = M0.lookup Z) := by
  induction L generalizing M0 row0 with
  | nil =>
    exact ⟨M0, row0, rfl, h0, fun Y => by simp [fileNames_nil], fun _ _ => rfl⟩
  | cons e L ih =>
    have herr : e.err = none := hL e (List.mem_cons_self _ _)
    have hL' : ∀ e' ∈ L, e'.err = none := fun e' he' => hL e' (List.mem_cons_of_mem _ he')
    cases hdir : e.IsDir with
    | true =>
      rw [fileNames_cons_dir e L hdir] at hcmp
      obtain ⟨M1, row1, hw, hrow, hlook, hother⟩ := ih hL' hcmp M0 row0 h0
      refine ⟨M1, row1, ?_, hrow, ?_, hother⟩
      · rw [walkFold]
        simp only [innerVisit, herr, hdir, Bool.not_true, Bool.false_and, Bool.false_eq_true,
          if_false]
        exact hw
      · intro Y
        rw [fileNames_cons_dir e L hdir]
        exact hlook Y
    | false =>
      rw [fileNames_cons_file e L hdir] at hcmp
      have hcmp' : ∀ Y ∈ fileNames L, X ≠ Y →
          comparePEFiles w (w.join folder X) (w.join folder Y) = .ok (cmp Y) :=
        fun Y hY => hcmp Y (List.mem_cons_of_mem _ hY)
      by_cases hX : X = e.Name
      · obtain ⟨M1, row1, hw, hrow, hlook, hother⟩ := ih hL' hcmp' M0 row0 h0
        refine ⟨M1, row1, ?_, hrow, ?_, hother⟩
        · rw [walkFold]
          have hb : (X != e.Name) = false := by simp [hX]
          simp only [innerVisit, herr, hdir, hb, Bool.and_false, Bool.false_eq_true, if_false]
          exact hw
        · intro Y
          rw [fileNames_cons_file e L hdir, hlook Y]
          by_cases hY : Y = e.Name
          · have hXY : X = Y := by rw [hX, hY]
            simp [hXY]
          · simp [hY]
      · have hc := hcmp e.Name (List.mem_cons_self _ _) hX
        have h0' : (M0.insert X (row0.insert e.Name (cmp e.Name))).lookup X
            = some (row0.insert e.Name (cmp e.Name)) := AList.lookup_insert _
        obtain ⟨M1, row1, hw, hrow, hlook, hother⟩ := ih hL' hcmp' _ _ h0'
        refine ⟨M1, row1, ?_, hrow, ?_, ?_⟩
        · rw [walkFold]
          have hb : (X != e.Name) = true := by simp [hX]
          simp only [innerVisit, herr, hdir, hb, Bool.not_false, Bool.and_self, if_true, hc, h0]
          exact hw
        · intro Y
          rw [fileNames_cons_file e L hdir, hlook Y]
          by_cases hY : Y = e.Name
          · subst hY
            simp [hX]
          · rw [AList.lookup_insert_ne hY]
            simp [hY]
        · intro Z hZ
          rw [hother Z hZ, AList.lookup_insert_ne hZ]

theorem outerWalk_spec (w : World) (folder : String) (cmp : String → String → GoMap Float64)
    (hall : ∀ e ∈ w.walk folder, e.err = none)
    (hcmp : ∀ X ∈ fileNames (w.walk folder), ∀ Y ∈ fileNames (w.walk folder), X ≠ Y →
      comparePEFiles w (w.join folder X) (w.join folder Y) = .ok (cmp X Y))
    (L : List WalkEntry) (hsub : ∀ e ∈ L, e ∈ w.walk folder) (M0 : Matrix) :
    ∃ M1, walkFold (outerVisit w folder) L M0 = .ok M1
      ∧ (∀ X, X ∈ fileNames L → ∃ row, M1.lookup X = some row ∧
          ∀ Y, row.lookup Y =
            if Y ∈ fileNames (w.walk folder) ∧ X ≠ Y then some (cmp X Y) else none)
      ∧ (∀ X, X ∉ fileNames L → M1.lookup X = M0.lookup X) := by
  induction L generalizing M0 with
  | nil =>
    exact ⟨M0, rfl, fun X hX => by simp [fileNames_nil] at hX, fun _ _ => rfl⟩
  | cons e L ih =>
    have he : e ∈ w.walk folder := hsub e (List.mem_cons_self _ _)
    have herr : e.err = none := hall e he
    have hsub' : ∀ e' ∈ L, e' ∈ w.walk folder :=
      fun e' he' => hsub e' (List.mem_cons_of_mem _ he')
    cases hdir : e.IsDir with
    | true =>
      obtain ⟨M1, hw, hin, hout⟩ := ih hsub' M0
      refine ⟨M1, ?_, ?_, ?_⟩
      · rw [walkFold]
        simp only [outerVisit, herr, hdir, Bool.not_true, Bool.false_eq_true, if_false]
        exact hw
      · intro X hX
        rw [fileNames_cons_dir e L hdir] at hX
        exact hin X hX
      · intro X hX
        rw [fileNames_cons_dir e L hdir] at hX
        exact hout X hX
    | false =>
      have hname : e.Name ∈ fileNames (w.walk folder) := mem_fileNames_of_mem e _ he hdir
      obtain ⟨M', row', hw', hrow', hlook', hother'⟩ :=
        innerWalk_spec w folder e.Name (cmp e.Name) (w.walk folder) hall
          (fun Y hY hne => hcmp e.Name hname Y hY hne) (M0.insert e.Name ∅) ∅
          (AList.lookup_insert _)
      obtain ⟨M1, hw, hin, hout⟩ := ih hsub' M'
      refine ⟨M1, ?_, ?_, ?_⟩
      · rw [walkFold]
        simp only [outerVisit, herr, hdir, Bool.not_false, if_true, hw']
        exact hw
      · intro X hX
        rw [fileNames_cons_file e L hdir] at hX
        by_cases hXL : X ∈ fileNames L
        · exact hin X hXL
        · have hXe : X = e.Name := by
            rcases List.mem_cons.mp hX with h | h
            · exact h
            · exact absurd h hXL
          subst hXe
          refine ⟨row', ?_, ?_⟩
          · rw [hout _ hXL, hrow']
          · intro Y
            rw [hlook' Y]
            simp
      · intro X hX
        rw [fileNames_cons_file e L hdir] at hX
        have hXL : X ∉ fileNames L := fun h => hX (List.mem_cons_of_mem _ h)
        have hXe : X ≠ e.Name := fun h => hX (h ▸ List.mem_cons_self _ _)
        rw [hout X hXL, hother' X hXe, AList.lookup_insert_ne hXe]

theorem sum_map_const {α : Type} (l : List α) (f : α → Nat) (c : Nat)
    (h : ∀ x ∈ l, f x = c) : (l.map f).sum = l.length * c := by
  induction l with
  | nil => simp
  | cons x xs ih =>
    rw [List.map_cons, List.sum_cons, h x (List.mem_cons_self _ _),
      ih (fun y hy => h y (List.mem_cons_of_mem _ hy)), List.length_cons]
    ring

theorem entries_length_eq_of_keys {V : Type} (x : GoMap V) (names : List String)
    (hn : names.Nodup) (h : ∀ k, (x.lookup k).isSome = true ↔ k ∈ names) :
    x.entries.length = names.length := by
  have hperm : x.keys.Perm names := by
    rw [List.perm_ext_iff_of_nodup x.keys_nodup hn]
    intro k
    rw [← AList.mem_keys, ← AList.lookup_isSome]
    exact h k
  have hlen : x.keys.length = x.entries.length := by
    simp [AList.keys, List.keys]
  rw [← hlen]
  exact hperm.length_eq

/-- The matrix returned for a folder whose visits carry no error and whose pairs of distinct
file names all compare without error. -/
theorem compareAllPEFiles_spec (w : World) (folder : String)
    (cmp : String → String → GoMap Float64)
    (hall : ∀ e ∈ w.walk folder, e.err = none)
    (hcmp : ∀ X ∈ fileNames (w.walk folder), ∀ Y ∈ fileNames (w.walk folder), X ≠ Y →
      comparePEFiles w (w.join folder X) (w.join folder Y) = .ok (cmp X Y)) :
    ∃ M, compareAllPEFiles w folder = .ok M
      ∧ (∀ X, X ∈ fileNames (w.walk folder) → ∃ row, M.lookup X = some row ∧
          ∀ Y, row.lookup Y =
            if Y ∈ fileNames (w.walk folder) ∧ X ≠ Y then some (cmp X Y) else none)
      ∧ (∀ X, X ∉ fileNames (w.walk folder) → M.lookup X = none) := by
  obtain ⟨M, hw, hin, hout⟩ :=
    outerWalk_spec w folder cmp hall hcmp (w.walk folder) (fun _ h => h) ∅
  exact ⟨M, hw, hin, fun X hX => by rw [hout X hX]; rfl⟩

theorem populatedPairs_of_spec (M : Matrix) (names : List String) (hn : names.Nodup)
    (cmp : String → String → GoMap Float64)
    (hin : ∀ X, X ∈ names → ∃ row, M.lookup X = some row ∧
      ∀ Y, row.lookup Y = if Y ∈ names ∧ X ≠ Y then some (cmp X Y) else none)
    (hout : ∀ X, X ∉ names → M.lookup X = none) :
    populatedPairs M = names.length * (names.length - 1) := by
  unfold populatedPairs
  have hkeys : ∀ k, (M.lookup k).isSome = true ↔ k ∈ names := by
    intro k
    by_cases hk : k ∈ names
    · obtain ⟨row, hrow, _⟩ := hin k hk
      simp [hrow, hk]
    · simp [hout k hk, hk]
  rw [sum_map_const M.entries _ (names.length - 1), entries_length_eq_of_keys M names hn hkeys]
  intro e he
  obtain ⟨X, row⟩ := e
  have hX : M.lookup X = some row := AList.mem_lookup_iff.mpr he
  have hXn : X ∈ names := (hkeys X).mp (by simp [hX])
  obtain ⟨row', hrow', hlook⟩ := hin X hXn
  rw [hX] at hrow'
  have hrr : row = row' := Option.some.inj hrow'
  subst hrr
  have hlen := entries_length_eq_of_keys row (names.erase X) (hn.erase X) (by
    intro k
    rw [hlook k, hn.mem_erase_iff]
    by_cases hk : k ∈ names ∧ X ≠ k
    · simp [hk, hk.2.symm]
    · rw [if_neg hk]
      simp only [Option.isSome_none, Bool.false_eq_true, false_iff]
      intro h
      exact hk ⟨h.2, fun e => h.1 e.symm⟩)
  simp only
  rw [hlen, List.length_erase_of_mem hXn]

/-- The builder on a folder in which every pair of distinct file names compares without error
at the paths `folder/X` and `folder/Y` that the callbacks open (so in particular when all
files lie directly in the folder) and the walk reports no error: the matrix is populated at
`(X, Y)` exactly for the file names `X ≠ Y`, each cell holding
`comparePEFiles (folder/X) (folder/Y)`; no cell `(f, f)` exists, and `F` distinct file names
give `F * (F - 1)` populated cells. -/
theorem compareAllPEFiles_all_pairs (w : World) (folder : String)
    (hall : ∀ e ∈ w.walk folder, e.err = none)
    (hcmp : ∀ X ∈ fileNames (w.walk folder), ∀ Y ∈ fileNames (w.walk folder), X ≠ Y →
      ∃ r, comparePEFiles w (w.join folder X) (w.join folder Y) = .ok r) :
    ∃ M, compareAllPEFiles w folder = .ok M
      ∧ (∀ X Y r, lookup2 M X Y = some r ↔
          (X ∈ fileNames (w.walk folder) ∧ Y ∈ fileNames (w.walk folder) ∧ X ≠ Y
            ∧ comparePEFiles w (w.join folder X) (w.join folder Y) = .ok r))
      ∧ (∀ f, lookup2 M f f = none)
      ∧ ((fileNames (w.walk folder)).Nodup →
          populatedPairs M
            = (fileNames (w.walk folder)).length * ((fileNames (w.walk folder)).length - 1)) := by
  let cmp : String → String → GoMap Float64 := fun X Y =>
    match comparePEFiles w (w.join folder X) (w.join folder Y) with
    | .ok r => r
    | .error _ => ∅
  have hcmp' : ∀ X ∈ fileNames (w.walk folder), ∀ Y ∈ fileNames (w.walk folder), X ≠ Y →
      comparePEFiles w (w.join folder X) (w.join folder Y) = .ok (cmp X Y) := by
    intro X hX Y hY hne
    obtain ⟨r, hr⟩ := hcmp X hX Y hY hne
    simp only [cmp, hr]
  obtain ⟨M, hM, hin, hout⟩ := compareAllPEFiles_spec w folder cmp hall hcmp'
  have hcell : ∀ X Y r, lookup2 M X Y = some r ↔
      (X ∈ fileNames (w.walk folder) ∧ Y ∈ fileNames (w.walk folder) ∧ X ≠ Y
        ∧ comparePEFiles w (w.join folder X) (w.join folder Y) = .ok r) := by
    intro X Y r
    unfold lookup2
    by_cases hX : X ∈ fileNames (w.walk folder)
    · obtain ⟨row, hrow, hlook⟩ := hin X hX
      rw [hrow, Option.some_bind, hlook Y]
      by_cases hY : Y ∈ fileNames (w.walk folder) ∧ X ≠ Y
      · rw [if_pos hY, hcmp' X hX Y hY.1 hY.2]
        constructor
        · intro h
          exact ⟨hX, hY.1, hY.2, by rw [Option.some.inj h]⟩
        · rintro ⟨_, _, _, h⟩
          rw [Except.ok.inj h]
      · rw [if_neg hY]
        constructor
        · intro h
          exact Option.noConfusion h
        · rintro ⟨_, h1, h2, _⟩
          exact absurd ⟨h1, h2⟩ hY
    · rw [hout X hX]
      constructor
      · intro h
        exact Option.noConfusion h
      · rintro ⟨h, _⟩
        exact absurd h hX
  refine ⟨M, hM, hcell, ?_, ?_⟩
  · intro f
    cases h : lookup2 M f f with
    | none => rfl
    | some r => exact absurd rfl ((hcell f f r).mp h).2.2.1
  · intro hn
    exact populatedPairs_of_spec M _ hn cmp hin hout

theorem demoWorld_pairs_compare :
    ∀ X ∈ fileNames (demoWorld.walk "dir"), ∀ Y ∈ fileNames (demoWorld.walk "dir"), X ≠ Y →
      ∃ r, comparePEFiles demoWorld (demoWorld.join "dir" X) (demoWorld.join "dir" Y) = .ok r := by
  intro X hX Y hY hne
  have hX' : X = "A" ∨ X = "B" ∨ X = "C" := by
    simpa [fileNames, demoWorld] using hX
  have hY' : Y = "A" ∨ Y = "B" ∨ Y = "C" := by
    simpa [fileNames, demoWorld] using hY
  have hA : ReadSectionsPE demoWorld.peNewFile ⟨[1, 2, 3, 4], 0⟩
      = .ok (((∅ : GoMap Bytes).insert "a" [1, 2]).insert "b" [3, 4]) := by rfl
  have hB : ReadSectionsPE demoWorld.peNewFile ⟨[3, 9, 7, 7], 0⟩
      = .ok (((∅ : GoMap Bytes).insert "b" [3, 9]).insert "c" [7, 7]) := by rfl
  have hC : ReadSectionsPE demoWorld.peNewFile ⟨[3, 4], 0⟩
      = .ok ((∅ : GoMap Bytes).insert "b" [3, 4]) := by rfl
  have oA : demoWorld.osOpen (demoWorld.join "dir" "A") = .ok [1, 2, 3, 4] := by rfl
  have oB : demoWorld.osOpen (demoWorld.join "dir" "B") = .ok [3, 9, 7, 7] := by rfl
  have oC : demoWorld.osOpen (demoWorld.join "dir" "C") = .ok [3, 4] := by rfl
  rcases hX' with rfl | rfl | rfl <;> rcases hY' with rfl | rfl | rfl
  · exact absurd rfl hne
  · exact ⟨_, comparePEFiles_eq_ok demoWorld _ _ _ _ _ _ oA oB hA hB⟩
  · exact ⟨_, comparePEFiles_eq_ok demoWorld _ _ _ _ _ _ oA oC hA hC⟩
  · exact ⟨_, comparePEFiles_eq_ok demoWorld _ _ _ _ _ _ oB oA hB hA⟩
  · exact absurd rfl hne
  · exact ⟨_, comparePEFiles_eq_ok demoWorld _ _ _ _ _ _ oB oC hB hC⟩
  · exact ⟨_, comparePEFiles_eq_ok demoWorld _ _ _ _ _ _ oC oA hC hA⟩
  · exact ⟨_, comparePEFiles_eq_ok demoWorld _ _ _ _ _ _ oC oB hC hB⟩
  · exact absurd rfl hne

/-- End-to-end scenario 4, a folder with the three files `A`, `B`, `C` directly in it: the
matrix has no diagonal cell and exactly `6` populated cells. -/
theorem compareAllPEFiles_all_pairs_witness :
    (∀ e ∈ demoWorld.walk "dir", e.err = none)
      ∧ (fileNames (demoWorld.walk "dir")).Nodup
      ∧ ∃ M, compareAllPEFiles demoWorld "dir" = .ok M
          ∧ (∀ f, lookup2 M f f = none) ∧ populatedPairs M = 6 := by
  refine ⟨by decide, by decide, ?_⟩
  obtain ⟨M, hM, _, hdiag, hcount⟩ :=
    compareAllPEFiles_all_pairs demoWorld "dir" (by decide) demoWorld_pairs_compare
  exact ⟨M, hM, hdiag, hcount (by decide)⟩

/-! ## Serializer -/

theorem foldl_append_singleton (l acc : List String) :
    l.foldl (fun headers innerKey => headers ++ [innerKey]) acc = acc ++ l := by
  induction l generalizing acc with
  | nil => simp
  | cons x xs ih => rw [List.foldl_cons, ih]; simp

theorem foldl_set_enumFrom (f : String → String) (k : String) (hs : List String)
    (j : Nat) (done : List String) (hj : done.length = j) :
    (hs.enumFrom j).foldl (fun row ih => row.set (ih.1 + 1) (f ih.2))
        (k :: (done ++ List.replicate hs.length ""))
      = k :: (done ++ hs.map f) := by
  induction hs generalizing j done with
  | nil => simp
  | cons h hs ih =>
    rw [List.enumFrom_cons, List.foldl_cons]
    have hset : (k :: (done ++ List.replicate (h :: hs).length "")).set (j + 1) (f h)
        = k :: ((done ++ [f h]) ++ List.replicate hs.length "") := by
      rw [List.set_cons_succ, List.length_cons, List.replicate_succ]
      congr 1
      rw [List.set_append_right _ _ (by omega)]
      simp [hj]
    simp only [hset]
    rw [ih (j + 1) (done ++ [f h]) (by simp [hj])]
    simp

/-- The row written for one first-level key. -/
theorem csvRow_eq (formatFloat : Float64 → String) (order1 : List String) (outerKey : String)
    (outerMap : GoMap Float64) :
    csvRow formatFloat ("" :: order1) outerKey outerMap
      = outerKey :: order1.map (fun h => formatFloat ((outerMap.lookup h).getD 0)) := by
  unfold csvRow
  have h0 : (List.replicate ("" :: order1).length "").set 0 outerKey
      = outerKey :: ([] ++ List.replicate order1.length "") := by
    simp [List.replicate_succ]
  simp only [h0, List.drop_one, List.tail_cons, List.enum]
  rw [foldl_set_enumFrom (fun h => formatFloat ((outerMap.lookup h).getD 0)) outerKey order1 0 []
    rfl]
  simp

theorem foldl_rows (formatFloat : Float64 → String) (headers : List String)
    (innerMap : GoMap (GoMap Float64)) (order2 : List String)
    (h2 : ∀ k ∈ order2, (innerMap.lookup k).isSome = true) (written : List (List String)) :
    order2.foldl
        (fun written outerKey =>
          match innerMap.lookup outerKey with
          | none => written
          | some outerMap => written ++ [csvRow formatFloat headers outerKey outerMap])
        written
      = written ++ order2.map (fun k =>
          csvRow formatFloat headers k ((innerMap.lookup k).getD ∅)) := by
  induction order2 generalizing written with
  | nil => simp
  | cons k ks ih =>
    obtain ⟨outerMap, hk⟩ := Option.isSome_iff_exists.mp (h2 k (List.mem_cons_self _ _))
    rw [List.foldl_cons, List.map_cons]
    simp only [hk, Option.getD_some]
    rw [ih (fun k' hk' => h2 k' (List.mem_cons_of_mem _ hk'))]
    simp

/-- C9: after the header `"" :: order1`, `writeSimilarityMatrixToCSV` writes one row per
first-level key `k` (in the order `order2` of the second loop), with `k` in column 0 and,
under each header column `h`, the rendering of `innerMap[k][h]` when that entry exists and
the rendering of zero, `"0"`, when it does not. -/
theorem writeSimilarityMatrixToCSV_rows (osCreate : String → Except String Unit)
    (formatFloat : Float64 → String) (order1 order2 : List String) (filename : String)
    (innerMap : GoMap (GoMap Float64)) (hcreate : osCreate filename = .ok ())
    (h1 : order1.Perm innerMap.keys) (h2 : order2.Perm innerMap.keys)
    (hzero : formatFloat 0 = "0") :
    writeSimilarityMatrixToCSV osCreate formatFloat order1 order2 filename innerMap
      = .ok (("" :: order1) :: order2.map (fun k => k :: order1.map (fun h =>
          match lookup2 innerMap k h with
          | some score => formatFloat score
          | none => "0")))
      ∧ (∀ h, h ∈ order1 ↔ (innerMap.lookup h).isSome = true)
      ∧ (∀ k, order2.count k = if (innerMap.lookup k).isSome = true then 1 else 0) := by
  have hmem : ∀ k ∈ order2, (innerMap.lookup k).isSome = true := by
    intro k hk
    rw [AList.lookup_isSome, AList.mem_keys]
    exact h2.mem_iff.mp hk
  refine ⟨?_, ?_, ?_⟩
  · unfold writeSimilarityMatrixToCSV
    simp only [hcreate, foldl_append_singleton, List.nil_append, List.singleton_append]
    rw [foldl_rows formatFloat _ innerMap order2 hmem]
    simp only [List.singleton_append, csvRow_eq]
    congr 2
    apply List.map_congr_left
    intro k hk
    obtain ⟨outerMap, hlk⟩ := Option.isSome_iff_exists.mp (hmem k hk)
    congr 1
    apply List.map_congr_left
    intro h _
    simp only [lookup2, hlk, Option.getD_some, Option.some_bind]
    cases outerMap.lookup h with
    | none => simpa using hzero
    | some score => rfl
  · intro h
    rw [AList.lookup_isSome, AList.mem_keys]
    exact h1.mem_iff
  · intro k
    rw [h2.count_eq]
    by_cases hk : k ∈ innerMap.keys
    · have hs : (innerMap.lookup k).isSome = true :=
        AList.lookup_isSome.mpr (AList.mem_keys.mpr hk)
      rw [if_pos hs, List.count_eq_one_of_mem innerMap.keys_nodup hk]
    · have hs : ¬ (innerMap.lookup k).isSome = true :=
        fun h => hk (AList.mem_keys.mp (AList.lookup_isSome.mp h))
      rw [if_neg hs, List.count_eq_zero_of_not_mem hk]

/-- C9 (witness): the table `{"x": {"y": 50}, "y": {"x": 50}}` with the header loop visiting
`x, y` and the row loop visiting `y, x`. -/
theorem writeSimilarityMatrixToCSV_rows_witness :
    writeSimilarityMatrixToCSV (fun _ => .ok ()) csvScenarioFormat ["x", "y"] ["y", "x"]
        "text.csv" csvScenarioMap
      = .ok [["", "x", "y"], ["y", "50", "0"], ["x", "0", "50"]] := by
  have h := (writeSimilarityMatrixToCSV_rows (fun _ => .ok ()) csvScenarioFormat ["x", "y"]
    ["y", "x"] "text.csv" csvScenarioMap rfl (by decide) (by decide)
    (by simp [csvScenarioFormat])).1
  rw [h]
  have e1 : lookup2 csvScenarioMap "y" "x" = some 50 := by decide
  have e2 : lookup2 csvScenarioMap "y" "y" = none := by decide
  have e3 : lookup2 csvScenarioMap "x" "x" = none := by decide
  have e4 : lookup2 csvScenarioMap "x" "y" = some 50 := by decide
  simp [e1, e2, e3, e4, csvScenarioFormat]

/-! ## SectionReader (PE) -/

/-- `readSectionBytes` fails only when the section is declared non-empty and the file holds
no byte at all from its offset on. -/
theorem readSectionBytes_isOk_iff (sec : SectionHeader) (file : File) :
    (∃ r, readSectionBytes sec file = .ok r)
      ↔ (sec.Size = 0 ∨ sec.Offset < file.content.length) := by
  unfold readSectionBytes File.Seek File.Read
  simp only
  by_cases hs : sec.Size = 0
  · simp [hs]
  · simp only [hs, if_false, false_or, List.drop_eq_nil_iff]
    by_cases ho : sec.Offset < file.content.length
    · simp [ho, Nat.not_le.mpr ho]
    · simp [ho, Nat.not_lt.mp ho]

/-- C10 (the program at the failing input): the 99-byte image `truncatedImage` parses to the
section table with `.text` at offset 96 of declared size 8, of which the file holds three
bytes; `ReadSectionsPE` reports no error and binds `.text` to those three bytes followed by
five zero bytes. -/
theorem ReadSectionsPE_short_read :
    truncatedImage.content.length = 99
      ∧ peNewFileObject truncatedImage.content = .ok [⟨".text", 96, 8⟩]
      ∧ ReadSectionsPE peNewFileObject truncatedImage
          = .ok ((∅ : GoMap Bytes).insert ".text" [0xAA, 0xBB, 0xCC, 0, 0, 0, 0, 0]) := by
  refine ⟨by decide, by rfl, by rfl⟩

/-! ## MatrixBuilder on a folder with a sub-directory -/

/-- C8 (the program at the failing input): in the folder `withsub` with the image `A` and the
image `sub/D`, the two files compare without error in both orders, yet `compareAllPEFiles`
opens `withsub/D` for the visit of `withsub/sub/D` and returns that error instead of a
matrix. -/
theorem compareAllPEFiles_subdirectory_file :
    (∃ r, comparePEFiles nestedWorld "withsub/A" "withsub/sub/D" = .ok r)
      ∧ (∃ r, comparePEFiles nestedWorld "withsub/sub/D" "withsub/A" = .ok r)
      ∧ compareAllPEFiles nestedWorld "withsub"
          = .error "error opening file2: open withsub/D: no such file or directory" := by
  have hA : ReadSectionsPE nestedWorld.peNewFile ⟨objectImage 3 [0x90, 0x90, 0x90], 0⟩
      = .ok ((∅ : GoMap Bytes).insert ".text" [0x90, 0x90, 0x90]) := by rfl
  have hD : ReadSectionsPE nestedWorld.peNewFile ⟨objectImage 3 [0x90, 0x90, 0x91], 0⟩
      = .ok ((∅ : GoMap Bytes).insert ".text" [0x90, 0x90, 0x91]) := by rfl
  have oA : nestedWorld.osOpen "withsub/A" = .ok (objectImage 3 [0x90, 0x90, 0x90]) := by rfl
  have oD : nestedWorld.osOpen "withsub/sub/D" = .ok (objectImage 3 [0x90, 0x90, 0x91]) := by
    rfl
  refine ⟨⟨_, comparePEFiles_eq_ok nestedWorld _ _ _ _ _ _ oA oD hA hD⟩,
    ⟨_, comparePEFiles_eq_ok nestedWorld _ _ _ _ _ _ oD oA hD hA⟩, ?_⟩
  rfl

end SectionSim
